import Mathlib

/-!
Shallow embedding of the bk-cmdb filter-expression engine
(`src/common/.../filter` package: `AtomRule`, `CombinedRule`, their
`Validate`, `RuleFields`, `ToMgo` and `MarshalBSON` methods), together
with theorems checking the natural-language specification against it.

The Operator Catalog and the logical-connective catalog are external
collaborators of the engine; the embedding is parametric over them
(a `Catalog` structure of functions), matching the contract in the spec.
-/

namespace Filter

/-- A single quote character, used to build error messages faithfully. -/
def squote : String := (Char.ofNat 39).toString

/-- `OpFactory` is the operator tag of an atom rule.  The source file only
distinguishes the two structural operators (`FilterObject`, `FilterArray`);
every other operator tag is opaque to the engine. -/
inductive OpFactory where
  | FilterObject
  | FilterArray
  | other (s : String)
deriving DecidableEq

/-- `LogicOperator` is the connective of a combined rule: `And`, `Or`, or an
unrecognized tag. -/
inductive LogicOperator where
  | And
  | Or
  | other (s : String)
deriving DecidableEq

/-- `enumor.ColumnType`: the declared semantic type of a field.  The Go
constant names `String`/`Numeric`/... are lowercased to avoid clashing with
the Lean core types. -/
inductive ColumnType where
  | string
  | numeric
  | boolean
  | time
  | object
  | array
  | other (s : String)
deriving DecidableEq

/-- Rendering of a `ColumnType` for error messages (Go `%s`). -/
def ColumnType.toStr : ColumnType → String
  | .string => "string"
  | .numeric => "numeric"
  | .boolean => "bool"
  | .time => "time"
  | .object => "object"
  | .array => "array"
  | .other s => s

mutual
/-- A dynamically-typed value (Go `interface{}`), as stored in an
`AtomRule`'s `Value` slot.  `nullv` is the nil interface; `rule` is a value
that holds a nested rule (used by the structural operators). -/
inductive Value where
  | str (s : String)
  | num (n : Int)
  | boolv (b : Bool)
  | timev (t : String)
  | nullv
  | seq (elems : List Value)
  | rule (r : RuleFactory)

/-- The rule tree: `AtomRule{Field, Operator, Value}` or
`CombinedRule{Condition, Rules}`. -/
inductive RuleFactory where
  | AtomRule (Field : String) (Operator : OpFactory) (Value : Value)
  | CombinedRule (Condition : LogicOperator) (Rules : List RuleFactory)
end

/-- `ExprOption`: the validation policy.  `RuleFields` is the
field-path-to-type mapping (a Go map, embedded as an association list);
the numeric limits are Go `uint` values, zero meaning unset. -/
structure ExprOption where
  RuleFields : List (String × ColumnType)
  MaxInLimit : Nat
  MaxNotInLimit : Nat
  MaxRulesLimit : Nat
  MaxRulesDepth : Nat

/-- `RuleOption`: the compilation path context. -/
structure RuleOption where
  Parent : String
  ParentType : ColumnType

/-- A compiled target-query value: a raw value, an operator sub-document,
or an array of sub-documents (the payload of an AND/OR key). -/
inductive MgoVal where
  | raw (v : Value)
  | subDoc (d : List (String × MgoVal))
  | docList (ds : List (List (String × MgoVal)))

/-- A compiled target-query document (`map[string]interface{}`). -/
abbrev MgoDoc := List (String × MgoVal)

/-- The external collaborator contract: per-operator validation and
compilation, and connective validation.  The engine is parametric over it. -/
structure Catalog where
  opValidate : OpFactory → Except String Unit
  opValidateValue : OpFactory → Value → Option ExprOption → Except String Unit
  opToMgo : OpFactory → String → Value → Except String MgoDoc
  logicValidate : LogicOperator → Except String Unit

/-- `true` exactly when an `Except` result is an error. -/
def isErr {α : Type} : Except String α → Bool
  | .error _ => true
  | .ok _ => false

/-- Modelled from the spec: `DefaultMaxRuleLimit`, the documented default
bound on the number of children of a combined rule.  The constant is
declared outside the given source file. -/
def DefaultMaxRuleLimit : Nat := 10

/-- Modelled from the spec: `FilterArrayElement`, the reserved sentinel
field name meaning "any array element".  The constant is declared outside
the given source file. -/
def FilterArrayElement : String := "element"

mutual
/-- `AtomRule.RuleFields` / `CombinedRule.RuleFields`: the ordered list of
field paths a rule refers to.  A structural operator whose value is a
nested rule reports the nested paths prefixed with its own field and a dot;
a structural operator whose value is not a rule falls back to the plain
field (the source logs an error and returns `[]string{ar.Field}`). -/
def RuleFactory.RuleFields : RuleFactory → List String
  | .AtomRule f op v =>
    match op with
    | .FilterObject | .FilterArray =>
      match v with
      | .rule sub => (RuleFactory.RuleFields sub).map (fun p => f ++ "." ++ p)
      | _ => [f]
    | .other _ => [f]
  | .CombinedRule _ rules => rulesRuleFields rules

/-- The concatenation of the fields of a list of rules, in order
(`CombinedRule.RuleFields`'s loop body). -/
def rulesRuleFields : List RuleFactory → List String
  | [] => []
  | r :: rs => RuleFactory.RuleFields r ++ rulesRuleFields rs
end

/-- Rendering of a `LogicOperator` for error messages (Go `%s`).  The
concrete strings of the `And`/`Or` constants are declared outside the given
source file; only their distinctness matters here. -/
def LogicOperator.toStr : LogicOperator → String
  | .And => "AND"
  | .Or => "OR"
  | .other s => s

/-- Modelled from the spec: `util.IsNumeric`, the runtime check that a
dynamic value is numeric (declared outside the given source file). -/
def isNumericValue : Value → Bool
  | .num _ => true
  | _ => false

/-- Modelled from the spec: `util.ValidateDatetimeType`, the runtime check
that a dynamic value is time-like (declared outside the given source
file). -/
def validateDatetimeType : Value → Except String Unit
  | .timev _ => .ok ()
  | _ => .error "unsupported datetime type"

mutual
/-- `validateFieldValue`: check a dynamic value against a declared column
type; sequences are checked element-wise. -/
def validateFieldValue : Value → ColumnType → Except String Unit
  | .seq elems, typ => validateSliceElements elems typ
  | v, typ =>
    match typ with
    | .string =>
      match v with
      | .str _ => .ok ()
      | _ => .error "value should be a string"
    | .numeric => if isNumericValue v then .ok () else .error "value should be a numeric"
    | .boolean =>
      match v with
      | .boolv _ => .ok ()
      | _ => .error "value should be a boolean"
    | .time => validateDatetimeType v
    | _ => .error ("unsupported value type format: " ++ typ.toStr)

/-- `validateSliceElements`: every element of a slice value must satisfy
the declared column type. -/
def validateSliceElements : List Value → ColumnType → Except String Unit
  | [], _ => .ok ()
  | v :: vs, typ =>
    match validateFieldValue v typ with
    | .error e => .error e
    | .ok _ => validateSliceElements vs typ
end

/-- The `opt.RuleFields` policy step of `AtomRule.Validate`: when the
policy declares fields, the rule's field must be declared and its value
must match the declared type. -/
def ruleFieldsTypeCheck (f : String) (v : Value) (opt : Option ExprOption) : Except String Unit :=
  match opt with
  | some o =>
    if o.RuleFields = [] then .ok ()
    else
      match o.RuleFields.lookup f with
      | none => .error ("rule field: " ++ f ++ " is not exist in the expr option")
      | some typ =>
        match validateFieldValue v typ with
        | .error e => .error ("invalid " ++ f ++ squote ++ "s value, " ++ e)
        | .ok _ => .ok ()
  | none => .ok ()

/-- `AtomRule.Validate`: non-empty field, recognized operator, non-nil
value, policy type check, then the operator's own value validation. -/
def atomRuleValidate (cat : Catalog) (f : String) (op : OpFactory) (v : Value)
    (opt : Option ExprOption) : Except String Unit :=
  if f.length = 0 then .error "field is empty"
  else
    match cat.opValidate op with
    | .error e => .error e
    | .ok _ =>
      match v with
      | .nullv => .error "rule value can not be nil"
      | _ =>
        match ruleFieldsTypeCheck f v opt with
        | .error e => .error e
        | .ok _ =>
          match cat.opValidateValue op v opt with
          | .error e => .error (f ++ " validate failed, " ++ e)
          | .ok _ => .ok ()

/-- The `opt.RuleFields` policy step of `CombinedRule.Validate`: every
referenced field path must be a declared policy field.  The Go source
iterates a set (map) of the paths; the check is order-insensitive for
success and failure, and we name the first offender in traversal order. -/
def checkRuleFieldsPolicy (fields : List String) (opt : Option ExprOption) :
    Except String Unit :=
  match opt with
  | some o =>
    if o.RuleFields = [] then .ok ()
    else
      match fields.find? (fun f1 => (o.RuleFields.lookup f1).isNone) with
      | some f1 => .error ("expression rules field(" ++ f1 ++ ") should not exist(not supported)")
      | none => .ok ()
  | none => .ok ()

/-- The effective bound on a combined rule's child count: the option's
`MaxRulesLimit` when positive, else `DefaultMaxRuleLimit`. -/
def effectiveMaxRulesLimit : Option ExprOption → Nat
  | some o => if 0 < o.MaxRulesLimit then o.MaxRulesLimit else DefaultMaxRuleLimit
  | none => DefaultMaxRuleLimit

mutual
/-- `AtomRule.Validate` / `CombinedRule.Validate`, dispatched over the rule
kind.  The combined branch mirrors the source sequence: condition check,
non-empty rules, rules-count limit, non-empty field set, field policy
check, depth accounting, then the children loop. -/
def RuleFactory.Validate (cat : Catalog) : RuleFactory → Option ExprOption → Except String Unit
  | .AtomRule f op v, opt => atomRuleValidate cat f op v opt
  | .CombinedRule cond rules, opt =>
    match cat.logicValidate cond with
    | .error e => .error e
    | .ok _ =>
      if rules.length = 0 then .error ("combined rules shouldn" ++ squote ++ "t be empty")
      else
        let maxRules := effectiveMaxRulesLimit opt
        if rules.length > maxRules then
          .error ("rules elements number is overhead, it at most have " ++ toString maxRules ++ " rules")
        else
          let fields := rulesRuleFields rules
          if fields = [] then .error "invalid expression, no field is found to query"
          else
            match checkRuleFieldsPolicy fields opt with
            | .error e => .error e
            | .ok _ =>
              match opt with
              | some o =>
                if 0 < o.MaxRulesDepth then
                  if o.MaxRulesDepth = 1 then .error "expression rules depth exceeds maximum"
                  else
                    validateRules cat rules
                      (some ⟨o.RuleFields, o.MaxInLimit, o.MaxNotInLimit, o.MaxRulesLimit,
                        o.MaxRulesDepth - 1⟩)
                else validateRules cat rules none
              | none => validateRules cat rules none

/-- The children loop of `CombinedRule.Validate`: validate every child with
the child options, returning the first child's error unchanged. -/
def validateRules (cat : Catalog) : List RuleFactory → Option ExprOption → Except String Unit
  | [], _ => .ok ()
  | r :: rs, opt =>
    match RuleFactory.Validate cat r opt with
    | .error e => .error e
    | .ok _ => validateRules cat rs opt
end

/-- Modelled from the spec: `common.BKDBAND`, the reserved AND-array
connective key of the target query grammar (declared outside the given
source file). -/
def BKDBAND : String := "$and"

/-- Modelled from the spec: `common.BKDBOR`, the reserved OR-array
connective key of the target query grammar (declared outside the given
source file). -/
def BKDBOR : String := "$or"

/-- Models `strconv.Atoi`'s digit loop: accumulate ASCII decimal digits,
failing on any other character. -/
def parseDigitList : List Char → Nat → Option Nat
  | [], acc => some acc
  | c :: cs, acc =>
    if c.isDigit then parseDigitList cs (acc * 10 + (c.toNat - 48)) else none

/-- Models `strconv.Atoi`: an optional sign followed by at least one ASCII
decimal digit.  The 64-bit range check is omitted (array indices in scope
here are small). -/
def goAtoi (s : String) : Option Int :=
  match s.toList with
  | [] => none
  | '+' :: cs => if cs = [] then none else (parseDigitList cs 0).map (fun n => (n : Int))
  | '-' :: cs => if cs = [] then none else (parseDigitList cs 0).map (fun n => -(n : Int))
  | l => (parseDigitList l 0).map (fun n => (n : Int))

mutual
/-- `AtomRule.ToMgo` / `CombinedRule.ToMgo`, dispatched over the rule kind.
The atom branch handles the optional path context (object prefixing, the
any-array-element sentinel, and positive array indices); the combined
branch compiles every child with the same context and wraps them under the
connective key. -/
def RuleFactory.ToMgo (cat : Catalog) : RuleFactory → Option RuleOption → Except String MgoDoc
  | .AtomRule f op v, opts =>
    match opts with
    | some opt =>
      if opt.Parent.length = 0 then .error "parent is empty"
      else
        match opt.ParentType with
        | .object => cat.opToMgo op (opt.Parent ++ "." ++ f) v
        | .array =>
          if f = FilterArrayElement then cat.opToMgo op opt.Parent v
          else
            match goAtoi f with
            | none => .error ("parse filter array index " ++ f ++ " failed, err: invalid syntax")
            | some index =>
              if index ≤ 0 then .error ("filter array index " ++ toString index ++ " is invalid")
              else cat.opToMgo op (opt.Parent ++ "." ++ f) v
        | pt => .error ("parent type " ++ pt.toStr ++ " is invalid")
    | none => cat.opToMgo op f v
  | .CombinedRule cond rules, opts =>
    match cat.logicValidate cond with
    | .error e => .error e
    | .ok _ =>
      if rules.length = 0 then .error ("combined rules shouldn" ++ squote ++ "t be empty")
      else
        match rulesToMgo cat rules opts 0 with
        | .error e => .error e
        | .ok filters =>
          match cond with
          | .Or => .ok [(BKDBOR, .docList filters)]
          | .And => .ok [(BKDBAND, .docList filters)]
          | .other s => .error ("unexpected operator " ++ s)

/-- The children loop of `CombinedRule.ToMgo`: compile every child with the
same path context, wrapping a child's error with its positional index. -/
def rulesToMgo (cat : Catalog) : List RuleFactory → Option RuleOption → Nat →
    Except String (List MgoDoc)
  | [], _, _ => .ok []
  | r :: rs, opts, idx =>
    match RuleFactory.ToMgo cat r opts with
    | .error e => .error ("rules[" ++ toString idx ++ "] is invalid, err: " ++ e)
    | .ok d =>
      match rulesToMgo cat rs opts (idx + 1) with
      | .error e => .error e
      | .ok ds => .ok (d :: ds)
end

/-- Rendering of an `OpFactory` for the wire encodings.  The concrete
operator strings are declared outside the given source file; only their
distinctness matters here. -/
def OpFactory.toStr : OpFactory → String
  | .FilterObject => "filter_object"
  | .FilterArray => "filter_array"
  | .other s => s

/-- A binary-document (BSON) value. -/
inductive BsonVal where
  | nullB
  | strB (s : String)
  | intB (n : Int)
  | boolB (b : Bool)
  | timeB (t : String)
  | arrB (elems : List BsonVal)
  | docB (d : List (String × BsonVal))

mutual
/-- The binary encoding of a non-nil rule: an `AtomRule` marshals through
`bsonAtomRuleCopier` as a `field`/`operator`/`value` document, a
`CombinedRule` through `bsonCombinedRuleBroker` as a `condition`/`rules`
document whose children are marshalled in order. -/
def marshalRule : RuleFactory → Except String BsonVal
  | .AtomRule f op v =>
    match encodeBsonValue v with
    | .error e => .error e
    | .ok bv => .ok (.docB [("field", .strB f), ("operator", .strB op.toStr), ("value", bv)])
  | .CombinedRule cond rules =>
    match marshalRules rules with
    | .error e => .error e
    | .ok bs => .ok (.docB [("condition", .strB cond.toStr), ("rules", .arrB bs)])

/-- The children loop of `CombinedRule.MarshalBSON`. -/
def marshalRules : List RuleFactory → Except String (List BsonVal)
  | [] => .ok []
  | r :: rs =>
    match marshalRule r with
    | .error e => .error e
    | .ok b =>
      match marshalRules rs with
      | .error e => .error e
      | .ok bs => .ok (b :: bs)

/-- The binary encoding of a dynamic value: scalars encode directly, a
nested rule encodes through its own marshaller. -/
def encodeBsonValue : Value → Except String BsonVal
  | .str s => .ok (.strB s)
  | .num n => .ok (.intB n)
  | .boolv b => .ok (.boolB b)
  | .timev t => .ok (.timeB t)
  | .nullv => .ok .nullB
  | .seq l =>
    match encodeBsonValues l with
    | .error e => .error e
    | .ok bs => .ok (.arrB bs)
  | .rule r => marshalRule r

/-- Element-wise binary encoding of a sequence value. -/
def encodeBsonValues : List Value → Except String (List BsonVal)
  | [] => .ok []
  | v :: vs =>
    match encodeBsonValue v with
    | .error e => .error e
    | .ok b =>
      match encodeBsonValues vs with
      | .error e => .error e
      | .ok bs => .ok (b :: bs)
end

/-- Modelled from the spec: the external binary encoder encodes a nil
document map (`map[string]interface{}(nil)`) as an explicit null value
rather than failing. -/
def bsonMarshalNilMap : BsonVal := .nullB

/-- `AtomRule.MarshalBSON`, with the pointer receiver embedded as an
`Option` of the struct fields (`none` is a Go nil receiver, which the
source guards before building the copier struct). -/
def AtomRuleMarshalBSON : Option (String × OpFactory × Value) → Except String BsonVal
  | none => .ok bsonMarshalNilMap
  | some (f, op, v) => marshalRule (.AtomRule f op v)

/-- `CombinedRule.MarshalBSON`, with the pointer receiver embedded as an
`Option` of the struct fields (`none` is a Go nil receiver, which the
source guards before building the broker struct). -/
def CombinedRuleMarshalBSON : Option (LogicOperator × List RuleFactory) →
    Except String BsonVal
  | none => .ok bsonMarshalNilMap
  | some (c, rs) => marshalRule (.CombinedRule c rs)

/-- A minimal concrete collaborator catalog satisfying the contract in the
spec: every operator tag and every operator value is accepted, operator
compilation emits a `(field, operator sub-document)` entry, and `And`/`Or`
are the two recognized connectives.  Used to instantiate the parametric
theorems on concrete inputs. -/
def specCat : Catalog :=
  { opValidate := fun _ => .ok ()
    opValidateValue := fun _ _ _ => .ok ()
    opToMgo := fun op f v => .ok [(f, .subDoc [(op.toStr, .raw v)])]
    logicValidate := fun l =>
      match l with
      | .And => .ok ()
      | .Or => .ok ()
      | .other s => .error ("unsupported expression operator type: " ++ s) }

/-! ### Helper lemmas -/

/-- If any member of the list fails validation, the children loop fails. -/
theorem validateRules_err_of_mem (cat : Catalog) (rules : List RuleFactory)
    (opt : Option ExprOption) (r : RuleFactory) (hm : r ∈ rules)
    (he : isErr (RuleFactory.Validate cat r opt) = true) :
    isErr (validateRules cat rules opt) = true := by
  induction rules with
  | nil => cases hm
  | cons hd tl ih =>
    simp only [validateRules]
    rcases List.mem_cons.mp hm with h | h
    · subst h
      cases hv : RuleFactory.Validate cat r opt with
      | error e => simp [isErr]
      | ok u => rw [hv] at he; simp [isErr] at he
    · cases hv : RuleFactory.Validate cat hd opt with
      | error e => simp [isErr]
      | ok u => exact ih h

/-- The children loop returns the first failing child's error unchanged. -/
theorem validateRules_first_err (cat : Catalog) (pre : List RuleFactory) (r : RuleFactory)
    (post : List RuleFactory) (opt : Option ExprOption) (e : String)
    (hpre : ∀ p ∈ pre, RuleFactory.Validate cat p opt = .ok ())
    (hr : RuleFactory.Validate cat r opt = .error e) :
    validateRules cat (pre ++ r :: post) opt = .error e := by
  induction pre with
  | nil => simp only [List.nil_append, validateRules, hr]
  | cons hd tl ih =>
    have hhd := hpre hd (List.mem_cons_self hd tl)
    simp only [List.cons_append, validateRules, hhd]
    exact ih fun p hp => hpre p (List.mem_cons_of_mem hd hp)

/-- A combined rule validated with `MaxRulesDepth = 1` always fails. -/
theorem validate_depth1_err (cat : Catalog) (cond : LogicOperator)
    (rules : List RuleFactory) (o : ExprOption) (h : o.MaxRulesDepth = 1) :
    isErr (RuleFactory.Validate cat (.CombinedRule cond rules) (some o)) = true := by
  simp only [RuleFactory.Validate]
  cases hlv : cat.logicValidate cond with
  | error e => simp [isErr]
  | ok u =>
    split
    · simp [isErr]
    · split
      · simp [isErr]
      · split
        · simp [isErr]
        · cases hpol : checkRuleFieldsPolicy (rulesRuleFields rules) (some o) with
          | error e => split <;> simp [isErr]
          | ok u2 => simp only [h]; split <;> simp [isErr]

/-- The compiled-children loop maps the child compiler over the list when
every child compiles. -/
theorem rulesToMgo_all_ok (cat : Catalog) (rules : List RuleFactory)
    (opts : Option RuleOption) (f : RuleFactory → MgoDoc)
    (hok : ∀ r ∈ rules, RuleFactory.ToMgo cat r opts = .ok (f r)) :
    ∀ idx : Nat, rulesToMgo cat rules opts idx = .ok (rules.map f) := by
  induction rules with
  | nil => intro idx; rfl
  | cons hd tl ih =>
    intro idx
    have hhd := hok hd (List.mem_cons_self hd tl)
    simp only [rulesToMgo, hhd]
    rw [ih (fun r hr => hok r (List.mem_cons_of_mem hd hr)) (idx + 1)]
    simp

/-- The compiled-children loop wraps the first failing child's error with
that child's position, offset by the starting index. -/
theorem rulesToMgo_wrap (cat : Catalog) (pre : List RuleFactory) (r : RuleFactory)
    (post : List RuleFactory) (opts : Option RuleOption) (e : String)
    (hpre : ∀ p ∈ pre, ∃ d, RuleFactory.ToMgo cat p opts = .ok d)
    (hr : RuleFactory.ToMgo cat r opts = .error e) :
    ∀ idx : Nat, rulesToMgo cat (pre ++ r :: post) opts idx =
      .error ("rules[" ++ toString (idx + pre.length) ++ "] is invalid, err: " ++ e) := by
  induction pre with
  | nil => intro idx; simp only [List.nil_append, rulesToMgo, hr, List.length_nil, Nat.add_zero]
  | cons hd tl ih =>
    intro idx
    obtain ⟨d, hd'⟩ := hpre hd (List.mem_cons_self hd tl)
    simp only [List.cons_append, rulesToMgo, hd', List.append_eq]
    rw [ih (fun p hp => hpre p (List.mem_cons_of_mem hd hp)) (idx + 1)]
    have hlen : idx + 1 + tl.length = idx + (hd :: tl).length := by
      simp only [List.length_cons]; omega
    rw [hlen]

/-! ### Claim theorems -/

/-- C7: an atom rule whose operator is FILTER_OBJECT or FILTER_ARRAY and
whose value is a nested rule reports exactly the nested rule's field paths
prefixed with its own field and a dot, in order. -/
theorem c7_thm (f : String) (op : OpFactory) (sub : RuleFactory)
    (h : op = .FilterObject ∨ op = .FilterArray) :
    RuleFactory.RuleFields (.AtomRule f op (.rule sub)) =
      (RuleFactory.RuleFields sub).map (fun p => f ++ "." ++ p) := by
  rcases h with h | h <;> subst h <;> simp [RuleFactory.RuleFields]

/-- C7 witness: the `addr`/`city` composition example evaluates to
`["addr.city"]`. -/
theorem c7_witness :
    RuleFactory.RuleFields (.AtomRule "addr" .FilterObject
      (.rule (.AtomRule "city" (.other "equal") (.str "x")))) = ["addr.city"] := by
  rw [c7_thm "addr" .FilterObject _ (Or.inl rfl)]
  rfl

/-- C8: compiling an atom rule with no path context is exactly the Operator
Catalog's direct compile of the rule's field and value. -/
theorem c8_thm (cat : Catalog) (f : String) (op : OpFactory) (v : Value) :
    RuleFactory.ToMgo cat (.AtomRule f op v) none = cat.opToMgo op f v := rfl

/-- C9: binary-document serialization of a nil atom-rule or combined-rule
receiver succeeds and encodes the explicit null value. -/
theorem c9_thm :
    AtomRuleMarshalBSON none = .ok BsonVal.nullB ∧
    CombinedRuleMarshalBSON none = .ok BsonVal.nullB := ⟨rfl, rfl⟩

/-- C10 counterexample: `fields()` of an atom rule is not always non-empty:
a structural operator whose nested rule reports no fields (here a combined
rule with no children) yields the empty list. -/
theorem c10_counterexample :
    RuleFactory.RuleFields
      (.AtomRule "a" .FilterObject (.rule (.CombinedRule .And []))) = [] := rfl

/-- C10 amended: `fields()` of an atom rule is total; a non-structural
operator yields exactly `[field]`; a structural operator whose value is not
a nested rule falls back to `[field]`; and the result can only be empty
when a structural operator's nested rule itself reports no fields. -/
theorem c10_thm (f : String) (op : OpFactory) (v : Value) :
    ((op ≠ .FilterObject ∧ op ≠ .FilterArray) →
      RuleFactory.RuleFields (.AtomRule f op v) = [f]) ∧
    ((∀ sub : RuleFactory, v ≠ .rule sub) →
      RuleFactory.RuleFields (.AtomRule f op v) = [f]) ∧
    (RuleFactory.RuleFields (.AtomRule f op v) = [] →
      ∃ sub : RuleFactory, (op = .FilterObject ∨ op = .FilterArray) ∧ v = .rule sub ∧
        RuleFactory.RuleFields sub = []) := by
  refine ⟨?_, ?_, ?_⟩
  · intro h
    cases op with
    | FilterObject => exact absurd rfl h.1
    | FilterArray => exact absurd rfl h.2
    | other s => simp [RuleFactory.RuleFields]
  · intro h
    cases op with
    | FilterObject =>
      cases v with
      | rule sub => exact absurd rfl (h sub)
      | str s => simp [RuleFactory.RuleFields]
      | num n => simp [RuleFactory.RuleFields]
      | boolv b => simp [RuleFactory.RuleFields]
      | timev t => simp [RuleFactory.RuleFields]
      | nullv => simp [RuleFactory.RuleFields]
      | seq l => simp [RuleFactory.RuleFields]
    | FilterArray =>
      cases v with
      | rule sub => exact absurd rfl (h sub)
      | str s => simp [RuleFactory.RuleFields]
      | num n => simp [RuleFactory.RuleFields]
      | boolv b => simp [RuleFactory.RuleFields]
      | timev t => simp [RuleFactory.RuleFields]
      | nullv => simp [RuleFactory.RuleFields]
      | seq l => simp [RuleFactory.RuleFields]
    | other s => simp [RuleFactory.RuleFields]
  · intro h
    cases op with
    | FilterObject =>
      cases v with
      | rule sub =>
        refine ⟨sub, Or.inl rfl, rfl, ?_⟩
        simp only [RuleFactory.RuleFields] at h
        exact List.map_eq_nil_iff.mp h
      | str s => simp [RuleFactory.RuleFields] at h
      | num n => simp [RuleFactory.RuleFields] at h
      | boolv b => simp [RuleFactory.RuleFields] at h
      | timev t => simp [RuleFactory.RuleFields] at h
      | nullv => simp [RuleFactory.RuleFields] at h
      | seq l => simp [RuleFactory.RuleFields] at h
    | FilterArray =>
      cases v with
      | rule sub =>
        refine ⟨sub, Or.inr rfl, rfl, ?_⟩
        simp only [RuleFactory.RuleFields] at h
        exact List.map_eq_nil_iff.mp h
      | str s => simp [RuleFactory.RuleFields] at h
      | num n => simp [RuleFactory.RuleFields] at h
      | boolv b => simp [RuleFactory.RuleFields] at h
      | timev t => simp [RuleFactory.RuleFields] at h
      | nullv => simp [RuleFactory.RuleFields] at h
      | seq l => simp [RuleFactory.RuleFields] at h
    | other s => simp [RuleFactory.RuleFields] at h

/-- C10 witness: a non-structural operator reports exactly its own field. -/
theorem c10_witness :
    RuleFactory.RuleFields (.AtomRule "x" (.other "equal") (.num 1)) = ["x"] :=
  (c10_thm "x" (.other "equal") (.num 1)).1 (by decide)

/-- C3: with `MaxRulesDepth = 1` every combined rule fails validation (so
in particular any combined rule containing a nested combined rule is
rejected, and a set depth must be at least 2 for the depth check to pass);
with `MaxRulesDepth = 2` a combined rule over atoms is accepted while any
combined rule with a nested combined child is rejected. -/
theorem c3_thm :
    (∀ (cat : Catalog) (cond : LogicOperator) (rules : List RuleFactory) (o : ExprOption),
      o.MaxRulesDepth = 1 →
      isErr (RuleFactory.Validate cat (.CombinedRule cond rules) (some o)) = true) ∧
    (RuleFactory.Validate specCat
      (.CombinedRule .And [.AtomRule "a" (.other "equal") (.num 5)])
      (some ⟨[], 0, 0, 0, 2⟩) = .ok ()) ∧
    (∀ (cat : Catalog) (cond cond2 : LogicOperator)
        (rules rules2 : List RuleFactory) (o : ExprOption),
      o.MaxRulesDepth = 2 → (RuleFactory.CombinedRule cond2 rules2) ∈ rules →
      isErr (RuleFactory.Validate cat (.CombinedRule cond rules) (some o)) = true) := by
  refine ⟨validate_depth1_err, rfl, ?_⟩
  intro cat cond cond2 rules rules2 o hd hm
  simp only [RuleFactory.Validate]
  cases hlv : cat.logicValidate cond with
  | error e => simp [isErr]
  | ok u =>
    split
    · simp [isErr]
    · split
      · simp [isErr]
      · split
        · simp [isErr]
        · cases hpol : checkRuleFieldsPolicy (rulesRuleFields rules) (some o) with
          | error e => split <;> simp [isErr]
          | ok u2 =>
            simp only [hd]
            split
            · simp [isErr]
            · have hchild : isErr (RuleFactory.Validate cat (.CombinedRule cond2 rules2)
                  (some ⟨o.RuleFields, o.MaxInLimit, o.MaxNotInLimit, o.MaxRulesLimit, 2 - 1⟩))
                  = true :=
                validate_depth1_err cat cond2 rules2 _ rfl
              have hloop := validateRules_err_of_mem cat rules
                (some ⟨o.RuleFields, o.MaxInLimit, o.MaxNotInLimit, o.MaxRulesLimit, 2 - 1⟩)
                _ hm hchild
              simpa using hloop

/-- C3 witness: at depth 1 a combined rule with a nested combined child is
rejected; at depth 2 the same one-level tree is accepted while wrapping it
in one more combined level is rejected. -/
theorem c3_witness :
    isErr (RuleFactory.Validate specCat
      (.CombinedRule .And [.CombinedRule .And [.AtomRule "a" (.other "equal") (.num 5)]])
      (some ⟨[], 0, 0, 0, 1⟩)) = true ∧
    RuleFactory.Validate specCat
      (.CombinedRule .And [.AtomRule "a" (.other "equal") (.num 5)])
      (some ⟨[], 0, 0, 0, 2⟩) = .ok () ∧
    isErr (RuleFactory.Validate specCat
      (.CombinedRule .And [.CombinedRule .And [.AtomRule "a" (.other "equal") (.num 5)]])
      (some ⟨[], 0, 0, 0, 2⟩)) = true :=
  ⟨c3_thm.1 specCat .And _ _ rfl, c3_thm.2.1,
    c3_thm.2.2 specCat .And .And _ [.AtomRule "a" (.other "equal") (.num 5)] _ rfl
      (List.mem_singleton.mpr rfl)⟩

/-- C6: a combined rule with no children fails validation, and one whose
child count exceeds the effective maximum (the option's `MaxRulesLimit`
when positive, else the default constant) fails validation. -/
theorem c6_thm (cat : Catalog) (cond : LogicOperator) (rules : List RuleFactory)
    (opt : Option ExprOption) :
    (rules = [] → isErr (RuleFactory.Validate cat (.CombinedRule cond rules) opt) = true) ∧
    (rules.length > effectiveMaxRulesLimit opt →
      isErr (RuleFactory.Validate cat (.CombinedRule cond rules) opt) = true) := by
  constructor
  · intro h
    subst h
    simp only [RuleFactory.Validate]
    cases hlv : cat.logicValidate cond with
    | error e => simp [isErr]
    | ok u => simp [isErr]
  · intro h
    simp only [RuleFactory.Validate]
    cases hlv : cat.logicValidate cond with
    | error e => simp [isErr]
    | ok u =>
      have hne : rules.length ≠ 0 := by
        intro h0
        rw [h0] at h
        omega
      rw [if_neg hne, if_pos h]
      rfl

/-- C6 witness: an empty combined rule is rejected, and three children
exceed an explicit limit of two. -/
theorem c6_witness :
    isErr (RuleFactory.Validate specCat (.CombinedRule .And []) none) = true ∧
    isErr (RuleFactory.Validate specCat
      (.CombinedRule .And [.AtomRule "a" (.other "equal") (.num 1),
        .AtomRule "b" (.other "equal") (.num 2), .AtomRule "c" (.other "equal") (.num 3)])
      (some ⟨[], 0, 0, 2, 0⟩)) = true :=
  ⟨(c6_thm specCat .And [] none).1 rfl,
    (c6_thm specCat .And _ (some ⟨[], 0, 0, 2, 0⟩)).2 (by decide)⟩

/-- C1 counterexample: with `MaxRulesDepth` unset (zero) the policy fields
are not forwarded to the children.  The combined rule below passes
validation even though its child, validated with the forwarded options,
fails the declared-type check (`a` is declared a string, the value is
numeric). -/
theorem c1_counterexample :
    RuleFactory.Validate specCat
      (.CombinedRule .And [.AtomRule "a" (.other "equal") (.num 5)])
      (some ⟨[("a", .string)], 0, 0, 0, 0⟩) = .ok () ∧
    isErr (RuleFactory.Validate specCat (.AtomRule "a" (.other "equal") (.num 5))
      (some ⟨[("a", .string)], 0, 0, 0, 0⟩)) = true :=
  ⟨rfl, rfl⟩

/-- C1 amended: when `MaxRulesDepth` is unset (zero) and the preceding
combined-rule checks pass, the children are validated with empty (nil)
options — the policy fields are dropped, not forwarded. -/
theorem c1_thm (cat : Catalog) (cond : LogicOperator) (rules : List RuleFactory)
    (o : ExprOption)
    (hlv : cat.logicValidate cond = .ok ())
    (hne : rules ≠ [])
    (hlim : rules.length ≤ effectiveMaxRulesLimit (some o))
    (hfld : rulesRuleFields rules ≠ [])
    (hpol : checkRuleFieldsPolicy (rulesRuleFields rules) (some o) = .ok ())
    (hdep : o.MaxRulesDepth = 0) :
    RuleFactory.Validate cat (.CombinedRule cond rules) (some o) =
      validateRules cat rules none := by
  have hlen : rules.length ≠ 0 := fun h => hne (List.length_eq_zero.mp h)
  simp only [RuleFactory.Validate, hlv]
  rw [if_neg hlen, if_neg (not_lt.mpr hlim), if_neg hfld]
  simp only [hpol, hdep]
  simp

/-- C1 witness: a concrete instance of the amended claim — depth unset,
policy declaring field `a`, one atom child, children validated with nil
options. -/
theorem c1_witness :
    RuleFactory.Validate specCat
      (.CombinedRule .And [.AtomRule "a" (.other "equal") (.num 5)])
      (some ⟨[("a", .numeric)], 0, 0, 0, 0⟩) =
      validateRules specCat [.AtomRule "a" (.other "equal") (.num 5)] none :=
  c1_thm specCat .And _ _ rfl (List.cons_ne_nil _ _) (by decide) (by decide) rfl rfl

/-- C2 counterexample: `CombinedRule.Validate` does not wrap a failing
child's error with the child's index — the child at position 0 fails with
`field is empty` and the combined rule returns that error verbatim, which
is not the index-wrapped form. -/
theorem c2_counterexample :
    RuleFactory.Validate specCat
      (.CombinedRule .And [.AtomRule "" (.other "equal") (.num 5)]) none
      = .error "field is empty" ∧
    RuleFactory.Validate specCat (.AtomRule "" (.other "equal") (.num 5)) none
      = .error "field is empty" ∧
    "field is empty" ≠ "rules[0] is invalid, err: field is empty" :=
  ⟨rfl, rfl, by decide⟩

/-- C2 amended: `CombinedRule.ToMgo` wraps a failing child's error with the
child's positional index, while `CombinedRule.Validate` returns the first
failing child's error unchanged (no index wrapping). -/
theorem c2_thm :
    (∀ (cat : Catalog) (cond : LogicOperator) (pre : List RuleFactory) (r : RuleFactory)
        (post : List RuleFactory) (opts : Option RuleOption) (e : String),
      cat.logicValidate cond = .ok () →
      (∀ p ∈ pre, ∃ d, RuleFactory.ToMgo cat p opts = .ok d) →
      RuleFactory.ToMgo cat r opts = .error e →
      RuleFactory.ToMgo cat (.CombinedRule cond (pre ++ r :: post)) opts =
        .error ("rules[" ++ toString pre.length ++ "] is invalid, err: " ++ e)) ∧
    (∀ (cat : Catalog) (cond : LogicOperator) (pre : List RuleFactory) (r : RuleFactory)
        (post : List RuleFactory) (e : String),
      cat.logicValidate cond = .ok () →
      (pre ++ r :: post).length ≤ DefaultMaxRuleLimit →
      rulesRuleFields (pre ++ r :: post) ≠ [] →
      (∀ p ∈ pre, RuleFactory.Validate cat p none = .ok ()) →
      RuleFactory.Validate cat r none = .error e →
      RuleFactory.Validate cat (.CombinedRule cond (pre ++ r :: post)) none = .error e) := by
  constructor
  · intro cat cond pre r post opts e hlv hpre hr
    simp only [RuleFactory.ToMgo, hlv]
    have hlen : (pre ++ r :: post).length ≠ 0 := by simp
    rw [if_neg hlen, rulesToMgo_wrap cat pre r post opts e hpre hr 0]
    simp
  · intro cat cond pre r post e hlv hlim hfld hpre hr
    simp only [RuleFactory.Validate, hlv]
    have hlen : (pre ++ r :: post).length ≠ 0 := by simp
    have hmax : ¬ ((pre ++ r :: post).length > effectiveMaxRulesLimit none) := by
      simpa [effectiveMaxRulesLimit] using not_lt.mpr hlim
    rw [if_neg hlen, if_neg hmax, if_neg hfld]
    simp only [checkRuleFieldsPolicy]
    exact validateRules_first_err cat pre r post none e hpre hr

/-- C2 witness: a failing child at position 0 makes `ToMgo` return the
index-wrapped error, while `Validate` returns the child's error verbatim. -/
theorem c2_witness :
    RuleFactory.ToMgo specCat (.CombinedRule .And [.CombinedRule (.other "x") []]) none
      = .error "rules[0] is invalid, err: unsupported expression operator type: x" ∧
    RuleFactory.Validate specCat
      (.CombinedRule .And [.AtomRule "" (.other "equal") (.num 5),
        .AtomRule "a" (.other "equal") (.num 6)]) none
      = .error "field is empty" := by
  constructor
  · have h := c2_thm.1 specCat .And [] (.CombinedRule (.other "x") []) [] none
      "unsupported expression operator type: x" rfl (by simp) rfl
    simpa using h
  · have h := c2_thm.2 specCat .And [] (.AtomRule "" (.other "equal") (.num 5))
      [.AtomRule "a" (.other "equal") (.num 6)] "field is empty" rfl (by decide) (by decide)
      (by simp) rfl
    simpa using h

/-- C4: compiling an atom rule under a non-empty array-typed parent
context: the any-element sentinel compiles against exactly the parent; any
other field must parse as a strictly positive integer (non-numeric and
non-positive fields fail), and on success the field is rewritten to
`parent + "." + field`. -/
theorem c4_thm (cat : Catalog) (op : OpFactory) (v : Value) (parent : String)
    (hp : parent.length ≠ 0) :
    (RuleFactory.ToMgo cat (.AtomRule FilterArrayElement op v)
        (some ⟨parent, .array⟩) = cat.opToMgo op parent v) ∧
    (∀ f : String, f ≠ FilterArrayElement → goAtoi f = none →
      isErr (RuleFactory.ToMgo cat (.AtomRule f op v) (some ⟨parent, .array⟩)) = true) ∧
    (∀ (f : String) (i : Int), f ≠ FilterArrayElement → goAtoi f = some i → i ≤ 0 →
      isErr (RuleFactory.ToMgo cat (.AtomRule f op v) (some ⟨parent, .array⟩)) = true) ∧
    (∀ (f : String) (i : Int), f ≠ FilterArrayElement → goAtoi f = some i → 0 < i →
      RuleFactory.ToMgo cat (.AtomRule f op v) (some ⟨parent, .array⟩)
        = cat.opToMgo op (parent ++ "." ++ f) v) := by
  refine ⟨?_, ?_, ?_, ?_⟩
  · simp only [RuleFactory.ToMgo]
    rw [if_neg hp]
    simp
  · intro f hf ha
    simp only [RuleFactory.ToMgo]
    rw [if_neg hp, if_neg hf, ha]
    simp [isErr]
  · intro f i hf ha hle
    simp only [RuleFactory.ToMgo]
    rw [if_neg hp, if_neg hf, ha]
    simp [hle, isErr]
  · intro f i hf ha hpos
    simp only [RuleFactory.ToMgo]
    rw [if_neg hp, if_neg hf, ha]
    have hni : ¬ i ≤ 0 := by omega
    simp [hni]

/-- C4 witness: under parent `tags`, field `1` compiles against `tags.1`,
fields `0`, `-1` and `x` fail, and the sentinel compiles against `tags`. -/
theorem c4_witness :
    RuleFactory.ToMgo specCat (.AtomRule "1" (.other "equal") (.num 5))
      (some ⟨"tags", .array⟩) = specCat.opToMgo (.other "equal") "tags.1" (.num 5) ∧
    isErr (RuleFactory.ToMgo specCat (.AtomRule "0" (.other "equal") (.num 5))
      (some ⟨"tags", .array⟩)) = true ∧
    isErr (RuleFactory.ToMgo specCat (.AtomRule "-1" (.other "equal") (.num 5))
      (some ⟨"tags", .array⟩)) = true ∧
    isErr (RuleFactory.ToMgo specCat (.AtomRule "x" (.other "equal") (.num 5))
      (some ⟨"tags", .array⟩)) = true ∧
    RuleFactory.ToMgo specCat (.AtomRule FilterArrayElement (.other "equal") (.num 5))
      (some ⟨"tags", .array⟩) = specCat.opToMgo (.other "equal") "tags" (.num 5) := by
  have h := c4_thm specCat (.other "equal") (.num 5) "tags" (by decide)
  refine ⟨?_, ?_, ?_, ?_, h.1⟩
  · have h4 := h.2.2.2 "1" 1 (by decide) (by decide) (by decide)
    simpa using h4
  · exact h.2.2.1 "0" 0 (by decide) (by decide) (by decide)
  · exact h.2.2.1 "-1" (-1) (by decide) (by decide) (by decide)
  · exact h.2.1 "x" (by decide) (by decide)

/-- C5: compiling a combined rule whose children all compile: the result is
the matching connective key mapped to exactly the children's fragments in
original order, every child compiled with the same path context; an
unrecognized condition is a compile-time failure. -/
theorem c5_thm (cat : Catalog) (cond : LogicOperator) (rules : List RuleFactory)
    (opts : Option RuleOption) (f : RuleFactory → MgoDoc)
    (hne : rules ≠ [])
    (hok : ∀ r ∈ rules, RuleFactory.ToMgo cat r opts = .ok (f r)) :
    ((rules.map f).length = rules.length) ∧
    (cat.logicValidate cond = .ok () → cond = .And →
      RuleFactory.ToMgo cat (.CombinedRule cond rules) opts
        = .ok [(BKDBAND, .docList (rules.map f))]) ∧
    (cat.logicValidate cond = .ok () → cond = .Or →
      RuleFactory.ToMgo cat (.CombinedRule cond rules) opts
        = .ok [(BKDBOR, .docList (rules.map f))]) ∧
    (∀ s : String, cond = .other s →
      isErr (RuleFactory.ToMgo cat (.CombinedRule cond rules) opts) = true) := by
  have hlen : rules.length ≠ 0 := fun h => hne (List.length_eq_zero.mp h)
  have hmgo := rulesToMgo_all_ok cat rules opts f hok 0
  refine ⟨by simp, ?_, ?_, ?_⟩
  · intro hlv hc
    subst hc
    simp only [RuleFactory.ToMgo, hlv]
    rw [if_neg hlen, hmgo]
  · intro hlv hc
    subst hc
    simp only [RuleFactory.ToMgo, hlv]
    rw [if_neg hlen, hmgo]
  · intro s hc
    subst hc
    simp only [RuleFactory.ToMgo]
    cases hlv : cat.logicValidate (.other s) with
    | error e => simp [isErr]
    | ok u =>
      rw [if_neg hlen, hmgo]
      simp [isErr]

/-- C5 witness: the end-to-end OR example — two atom children compile, in
order, under the OR connective key. -/
theorem c5_witness :
    RuleFactory.ToMgo specCat
      (.CombinedRule .Or [.AtomRule "age" (.other "gt") (.num 18),
        .AtomRule "name" (.other "equal") (.str "Al")]) none
      = .ok [(BKDBOR, .docList [[("age", .subDoc [("gt", .raw (.num 18))])],
          [("name", .subDoc [("equal", .raw (.str "Al"))])]])] := by
  have hok : ∀ r ∈ [RuleFactory.AtomRule "age" (.other "gt") (.num 18),
      RuleFactory.AtomRule "name" (.other "equal") (.str "Al")],
      RuleFactory.ToMgo specCat r none
        = .ok ((fun r => match r with
            | RuleFactory.AtomRule fld op v => [(fld, MgoVal.subDoc [(op.toStr, .raw v)])]
            | _ => ([] : MgoDoc)) r) := by
    intro r hr
    rcases List.mem_cons.mp hr with h1 | h1
    · subst h1; rfl
    · rcases List.mem_cons.mp h1 with h2 | h2
      · subst h2; rfl
      · cases h2
  have h := (c5_thm specCat .Or _ none _ (List.cons_ne_nil _ _) hok).2.2.1 rfl rfl
  simpa using h

end Filter
